import Mathlib

/-!
Verification development for the `navidrome-fm` track-reconciliation engine
(`src/navidrome_fm/db.py` and `src/navidrome_fm/cli.py`).

Modelling conventions:
* Python strings are modelled as `List Char`.  All track fields are assumed
  newline-free and ASCII-cased, so Python `str.lower`, SQLite `NOCASE` and
  `Char.toLower` agree, and `.` in the anchored regexes of `trim_feature`
  matches every character of the field.
* SQLite rows are modelled as lists of records; `NULL`able columns as
  `Option`; the `WHERE x = ?` filter is false whenever either side is NULL.
* `sqlite3` exceptions (`IntegrityError` for primary-key and foreign-key
  violations, Python `IndexError`) are modelled with `Except`.
* `difflib.SequenceMatcher(None, a, b)` is embedded exactly (CPython
  algorithm with `isjunk = None`, including the `autojunk` purge of popular
  elements for `len(b) >= 200`); `ratio()` is computed in `ℚ` instead of
  binary floating point.
-/

deriving instance DecidableEq for Except

namespace NavidromeFM

/-- Characters of a Python string. -/
abbrev Str := List Char

/-- Python `str.lower` / SQLite `NOCASE` folding (ASCII fields). -/
def lowerStr (s : Str) : Str := s.map Char.toLower

/-- Scan for the start index of the rightmost occurrence of `pat` in `s`,
trying indices `m, m-1, ..., 0`. -/
def lastOccAux (pat s : Str) : Nat → Option Nat
  | 0 => if pat.isPrefixOf s then some 0 else none
  | m + 1 => if pat.isPrefixOf (s.drop (m + 1)) then some (m + 1) else lastOccAux pat s m

/-- Start index of the rightmost occurrence of `pat` in `s`, if any. -/
def lastOcc (pat s : Str) : Option Nat := lastOccAux pat s s.length

/-- One substitution `re.sub(r"^(.*)PAT.*$", lambda m: m.group(1), t)` from
`trim_feature` in `db.py`: the regex is anchored and `(.*)` is greedy, so when
`PAT` occurs the match keeps exactly the prefix before the LAST occurrence,
and otherwise the string is returned unchanged. -/
def subKeepBeforeLast (pat t : Str) : Str :=
  match lastOcc pat t with
  | some i => t.take i
  | none => t

/-- `trim_feature` from `db.py`: first the `"feat. "` substitution, then the
`"ft. "` substitution on its result. -/
def trim_feature (t : Str) : Str :=
  subKeepBeforeLast "ft. ".data (subKeepBeforeLast "feat. ".data t)

/-- Python `album or ""` (`None` and the empty string both yield `""`). -/
def albumOr (x : Option Str) : Str :=
  match x with
  | some s => s
  | none => []

/-- SQLite `col = ?` as a row filter: NULL on either side never matches. -/
def sqlEq (x y : Option Str) : Bool :=
  match x, y with
  | some a, some b => a == b
  | _, _ => false

/-- SQLite `col = ? COLLATE NOCASE` as a row filter (ASCII folding),
NULL on either side never matches. -/
def sqlEqNocase (x y : Option Str) : Bool :=
  match x, y with
  | some a, some b => lowerStr a == lowerStr b
  | _, _ => false

/-- A row of the `track` table / the `LastFMTrackEntry` dataclass. -/
structure LastFMTrackEntry where
  id : Str
  title : Str
  artist : Str
  album : Option Str
  mbid : Option Str
deriving DecidableEq

/-- The `NavidromeTrackEntry` dataclass (a row of `media_file`). -/
structure NavidromeTrackEntry where
  id : Str
  title : Str
  artist : Str
  album : Option Str
  mbz_recording_id : Option Str
deriving DecidableEq

/-- The scrobble database state used by the matcher: the `track` table and
the `match` / `blacklist` relations, both keyed `(trackid, navidromeid)`
with a `PRIMARY KEY` on the pair and a `FOREIGN KEY` on `trackid` only. -/
structure ScrobbleStore where
  tracks : List LastFMTrackEntry
  matchRel : List (Str × Str)
  blacklistRel : List (Str × Str)
deriving DecidableEq

/-- Errors surfaced by the embedded operations: `sqlite3.IntegrityError`
(primary-key or foreign-key violation) and Python `IndexError`. -/
inductive Err where
  | integrityError
  | indexError
deriving DecidableEq

/-- The `id` column of the `track` table. -/
def trackIds (st : ScrobbleStore) : List Str := st.tracks.map (·.id)

/-- `NavidromeScrobbleMatcher.save_match`: a plain
`INSERT INTO match(trackid, navidromeid) VALUES (t2.id, t1.id)`; the
`(trackid, navidromeid)` primary key rejects duplicates, and with
`PRAGMA foreign_keys = ON` the `trackid` foreign key rejects an id absent
from `track` (there is no foreign key on `navidromeid`). -/
def save_match (st : ScrobbleStore) (t1 : NavidromeTrackEntry) (t2 : LastFMTrackEntry) :
    Except Err ScrobbleStore :=
  if (t2.id, t1.id) ∈ st.matchRel ∨ t2.id ∉ trackIds st then .error .integrityError
  else .ok { st with matchRel := st.matchRel ++ [(t2.id, t1.id)] }

/-- `NavidromeScrobbleMatcher.blacklist_match`: same `INSERT` shape as
`save_match`, into the `blacklist` table. -/
def blacklist_match (st : ScrobbleStore) (t1 : NavidromeTrackEntry) (t2 : LastFMTrackEntry) :
    Except Err ScrobbleStore :=
  if (t2.id, t1.id) ∈ st.blacklistRel ∨ t2.id ∉ trackIds st then .error .integrityError
  else .ok { st with blacklistRel := st.blacklistRel ++ [(t2.id, t1.id)] }

/-- `NavidromeScrobbleMatcher.is_blacklisted`: `SELECT ... FROM blacklist
WHERE trackid = t2.id AND navidromeid = t1.id` is non-empty. -/
def is_blacklisted (st : ScrobbleStore) (t1 : NavidromeTrackEntry) (t2 : LastFMTrackEntry) :
    Bool :=
  decide ((t2.id, t1.id) ∈ st.blacklistRel)

end NavidromeFM

namespace Difflib

open NavidromeFM (Str)

/-- Number of occurrences of `c` in `b`. -/
def countChar (b : Str) (c : Char) : Nat := (b.filter (· == c)).length

/-- The `b2j` map of `SequenceMatcher(None, a, b)`: the ascending positions
of `c` in `b`, except that when the autojunk heuristic applies
(`len(b) >= 200`) a popular element (more than `len(b) // 100 + 1`
occurrences) gets the empty list. -/
def b2j (b : Str) (c : Char) : List Nat :=
  if 200 ≤ b.length ∧ b.length / 100 + 1 < countChar b c then []
  else (List.range b.length).filter (fun j => b.getD j ' ' == c)

/-- State of the `find_longest_match` dynamic-programming loop:
the previous row's `j2len` dictionary (total function, absent keys are `0`)
and the best block found so far. -/
structure FlmState where
  j2len : Nat → Nat
  besti : Nat
  bestj : Nat
  bestsize : Nat

/-- One inner-loop step of `find_longest_match` at row `i`, column `j`:
`k = newj2len[j] = j2len.get(j-1, 0) + 1`, updating the best block when
`k > bestsize` (CPython sets `besti = i-k+1`, here `i+1-k` in `ℕ`). -/
def flmCell (old : Nat → Nat) (i : Nat) (st : FlmState) (j : Nat) : FlmState :=
  let k := (if j = 0 then 0 else old (j - 1)) + 1
  let upd : Nat → Nat := fun j' => if j' = j then k else st.j2len j'
  if st.bestsize < k then
    { j2len := upd, besti := i + 1 - k, bestj := j + 1 - k, bestsize := k }
  else
    { st with j2len := upd }

/-- One outer-loop row of `find_longest_match`: scan the ascending positions
`b2j[a[i]]` restricted to `[blo, bhi)`, starting from a fresh `newj2len`. -/
def flmRow (a b : Str) (blo bhi : Nat) (st : FlmState) (i : Nat) : FlmState :=
  let js := (b2j b (a.getD i ' ')).filter (fun j => decide (blo ≤ j) && decide (j < bhi))
  js.foldl (flmCell st.j2len i) { st with j2len := fun _ => 0 }

/-- The full dynamic-programming phase of `find_longest_match` over rows
`alo, ..., ahi - 1`. -/
def flmDP (a b : Str) (alo ahi blo bhi : Nat) : FlmState :=
  (List.range' alo (ahi - alo)).foldl (flmRow a b blo bhi)
    { j2len := fun _ => 0, besti := alo, bestj := blo, bestsize := 0 }

/-- Backward extension loop of `find_longest_match` (with `isjunk = None` the
junk set is empty, so the only guard is character equality). `fuel` bounds the
iteration count; the caller passes `besti`, which is exact. -/
def extendBack (a b : Str) (alo blo : Nat) : Nat → Nat → Nat → Nat → Nat × Nat × Nat
  | 0, i, j, size => (i, j, size)
  | fuel + 1, i, j, size =>
    if alo < i ∧ blo < j ∧ a.getD (i - 1) ' ' = b.getD (j - 1) ' ' then
      extendBack a b alo blo fuel (i - 1) (j - 1) (size + 1)
    else (i, j, size)

/-- Forward extension loop of `find_longest_match`. -/
def extendFwd (a b : Str) (ahi bhi : Nat) : Nat → Nat → Nat → Nat → Nat
  | 0, _, _, size => size
  | fuel + 1, i, j, size =>
    if i + size < ahi ∧ j + size < bhi ∧ a.getD (i + size) ' ' = b.getD (j + size) ' ' then
      extendFwd a b ahi bhi fuel i j (size + 1)
    else size

/-- `SequenceMatcher(None, a, b).find_longest_match(alo, ahi, blo, bhi)`.
With `isjunk = None` the junk set is empty: the two non-junk extension
while-loops never block on the junk test and the two junk extension
while-loops never run. -/
def find_longest_match (a b : Str) (alo ahi blo bhi : Nat) : Nat × Nat × Nat :=
  let st := flmDP a b alo ahi blo bhi
  let r := extendBack a b alo blo st.besti st.besti st.bestj st.bestsize
  (r.1, r.2.1, extendFwd a b ahi bhi ahi r.1 r.2.1 r.2.2)

/-- Total matched size of `get_matching_blocks()`: recursively take the
longest match of the interval and recurse on both remainders (the queue
order of CPython does not affect the sum).  `fuel` bounds the recursion
depth; every real run shrinks the interval, so `len(a) + len(b) + 1`
suffices. -/
def matchesSum (a b : Str) : Nat → Nat → Nat → Nat → Nat → Nat
  | 0, _, _, _, _ => 0
  | fuel + 1, alo, ahi, blo, bhi =>
    let r := find_longest_match a b alo ahi blo bhi
    let i := r.1
    let j := r.2.1
    let k := r.2.2
    if k = 0 then 0
    else
      k + (if alo < i ∧ blo < j then matchesSum a b fuel alo i blo j else 0)
        + (if i + k < ahi ∧ j + k < bhi then matchesSum a b fuel (i + k) ahi (j + k) bhi else 0)

/-- Sum of the block sizes of `get_matching_blocks()`. -/
def totalMatches (a b : Str) : Nat :=
  matchesSum a b (a.length + b.length + 1) 0 a.length 0 b.length

/-- `SequenceMatcher.ratio()`, `2.0 * M / (len(a) + len(b))` with the
`_calculate_ratio` convention that two empty sequences have ratio `1.0`;
modelled exactly over `ℚ` (via `mkRat`, which builds the same value as the
division — see `ratio_eq_div`). -/
def ratio (a b : Str) : ℚ :=
  if a.length + b.length = 0 then 1
  else mkRat (2 * (totalMatches a b : Int)) (a.length + b.length)

end Difflib

namespace NavidromeFM

open Difflib (ratio find_longest_match)

/-- The first string built inside `matcher_for` (the navidrome side):
`(trim_feature(t1.title) + trim_feature(t1.artist) + (t1.album or "")).lower()`.
Note that the album is NOT passed through `trim_feature`. -/
def navKey (t : NavidromeTrackEntry) : Str :=
  lowerStr (trim_feature t.title ++ trim_feature t.artist ++ albumOr t.album)

/-- The second string built inside `matcher_for` (the last.fm side). -/
def lfmKey (t : LastFMTrackEntry) : Str :=
  lowerStr (trim_feature t.title ++ trim_feature t.artist ++ albumOr t.album)

/-- `matcher_for(t1, t2).ratio()`: the aggregate ratio on the concatenated
keys. -/
def matcher_ratio (t1 : NavidromeTrackEntry) (t2 : LastFMTrackEntry) : ℚ :=
  ratio (navKey t1) (lfmKey t2)

/-- The per-field pairs used by `min_match_ratio` and `enough_overlap`:
trimmed titles, trimmed artists, and the untrimmed albums. -/
def fieldPairs (t1 : NavidromeTrackEntry) (t2 : LastFMTrackEntry) : List (Str × Str) :=
  [(trim_feature t1.title, trim_feature t2.title),
   (trim_feature t1.artist, trim_feature t2.artist),
   (albumOr t1.album, albumOr t2.album)]

/-- `min_match_ratio(t1, t2)`: the minimum of the three per-field ratios of
the lowercased pair components. -/
def min_match_ratio (t1 : NavidromeTrackEntry) (t2 : LastFMTrackEntry) : ℚ :=
  min (ratio (lowerStr (trim_feature t1.title)) (lowerStr (trim_feature t2.title)))
    (min (ratio (lowerStr (trim_feature t1.artist)) (lowerStr (trim_feature t2.artist)))
      (ratio (lowerStr (albumOr t1.album)) (lowerStr (albumOr t2.album))))

/-- `enough_overlap(t1, t2)`: for every field pair, the size of the longest
match of the lowercased components is at least
`min(len(a), len(b), min_overlap)`. -/
def enough_overlap (min_overlap : Nat) (t1 : NavidromeTrackEntry) (t2 : LastFMTrackEntry) :
    Bool :=
  (fieldPairs t1 t2).all fun p =>
    let a := lowerStr p.1
    let b := lowerStr p.2
    decide (min (min a.length b.length) min_overlap ≤
      (find_longest_match a b 0 a.length 0 b.length).2.2)

/-- The `mbid = ?` lookup of the first tier. -/
def tier1 (st : ScrobbleStore) (track : NavidromeTrackEntry) : List LastFMTrackEntry :=
  st.tracks.filter fun r => sqlEq r.mbid track.mbz_recording_id

/-- The exact-match lookup of the second tier,
`WHERE title = ? AND artist = ? AND album = ? COLLATE NOCASE`.  SQLite's
`COLLATE` postfix operator binds tighter than `=` and `AND`, so `NOCASE`
attaches to the album parameter only: title and artist are compared with the
default BINARY collation, only the album comparison is case-insensitive. -/
def tier2 (st : ScrobbleStore) (track : NavidromeTrackEntry) : List LastFMTrackEntry :=
  st.tracks.filter fun r =>
    r.title == track.title && r.artist == track.artist && sqlEqNocase r.album track.album

/-- Modelled on the spec's words for `find_exact` (§4.3, §4.4 tier 2):
case-insensitive equality of all three of title, artist and album.  Kept for
comparison with `tier2`, the query the code actually runs. -/
def find_exact_spec (st : ScrobbleStore) (track : NavidromeTrackEntry) :
    List LastFMTrackEntry :=
  st.tracks.filter fun r =>
    lowerStr r.title == lowerStr track.title && lowerStr r.artist == lowerStr track.artist &&
      sqlEqNocase r.album track.album

/-- The fuzzy-tier candidate query
`SELECT id, title, artist, album FROM track WHERE title=? OR artist=? OR album=?`
(BINARY collation; a NULL album never matches), followed by the Python
constructor `LastFMTrackEntry(id, title, artist, album or None, mbid=None)`
(an empty-string album becomes `None`, `mbid` is not selected). -/
def fuzzyQuery (st : ScrobbleStore) (track : NavidromeTrackEntry) : List LastFMTrackEntry :=
  (st.tracks.filter fun r =>
      r.title == track.title || r.artist == track.artist || sqlEq r.album track.album).map
    fun r =>
      { r with
        album := match r.album with
          | some [] => none
          | x => x
        mbid := none }

/-- Stable insert for the descending sort by ratio: the new element goes
after every element whose ratio is at least as large. -/
def insertDesc (x : LastFMTrackEntry × ℚ) :
    List (LastFMTrackEntry × ℚ) → List (LastFMTrackEntry × ℚ)
  | [] => [x]
  | y :: ys => if x.2 ≤ y.2 then y :: insertDesc x ys else x :: y :: ys

/-- Python's `sorted(..., key=lambda z: z[1], reverse=True)`: a stable sort,
descending by ratio (modelled by stable insertion sort, which produces the
same list as any stable sort under the same order). -/
def sortByRatioDesc (l : List (LastFMTrackEntry × ℚ)) : List (LastFMTrackEntry × ℚ) :=
  l.foldl (fun acc x => insertDesc x acc) []

/-- The ranked fuzzy candidate list (`match_ratio_sort` before filtering):
each candidate zipped with its aggregate ratio, sorted descending. -/
def rankedCandidates (st : ScrobbleStore) (track : NavidromeTrackEntry) :
    List (LastFMTrackEntry × ℚ) :=
  sortByRatioDesc ((fuzzyQuery st track).map fun m => (m, matcher_ratio track m))

/-- The surviving ranked candidates (`match_ratio_sort` after filtering):
per-field ratio floor, overlap floor, and the blacklist filter. -/
def rankedSurvivors (st : ScrobbleStore) (track : NavidromeTrackEntry)
    (min_ratio_each : ℚ) (min_overlap : Nat) : List (LastFMTrackEntry × ℚ) :=
  (rankedCandidates st track).filter fun p =>
    decide (min_ratio_each < min_match_ratio track p.1) &&
      enough_overlap min_overlap track p.1 && !is_blacklisted st track p.1

/-- Python list indexing `l[i]` with negative wrap-around;
`none` is an `IndexError`. -/
def pyGet {α : Type} (l : List α) (i : Int) : Option α :=
  if 0 ≤ i then l.get? i.toNat
  else if 0 ≤ i + l.length then l.get? (i + l.length).toNat else none

/-- The reject-all loop: `blacklist_match` for every surviving candidate,
in ranked order, stopping at the first `IntegrityError`. -/
def blacklistAll (track : NavidromeTrackEntry) (st : ScrobbleStore) :
    List (LastFMTrackEntry × ℚ) → Except Err ScrobbleStore
  | [] => .ok st
  | p :: rest => do blacklistAll track (← blacklist_match st track p.1) rest

/-- The match outcome statuses of `db.MatchStatus`. -/
inductive MatchStatus where
  | MATCH
  | NO_MATCH
  | CHOICE_REQUIRED
deriving DecidableEq

/-- `NavidromeScrobbleMatcher.match_lastfm_tracks_for`.  The operator's
reply to the interactive prompt is modelled after `int`-parsing and the
empty-input check: `none` is the empty reply (skip), `some choices` the
parsed comma-separated integers (a reply that is not a comma-separated
integer list raises `ValueError` in Python and is outside this embedding;
`inp.split(",")` never yields an empty list, so real replies have
`choices ≠ []`).  The returned store reflects any blacklist writes. -/
def match_lastfm_tracks_for (st : ScrobbleStore) (track : NavidromeTrackEntry)
    (interactive fuzzy : Bool) (response : Option (List Int))
    (min_ratio_all min_ratio_each : ℚ) (min_overlap : Nat) :
    Except Err (ScrobbleStore × MatchStatus × List LastFMTrackEntry) :=
  if tier1 st track ≠ [] then .ok (st, .MATCH, tier1 st track)
  else if tier2 st track ≠ [] then .ok (st, .MATCH, tier2 st track)
  else if fuzzy = false then .ok (st, .NO_MATCH, [])
  else
    let survivors := rankedSurvivors st track min_ratio_each min_overlap
    if survivors ≠ [] then
      let acceptable := survivors.filter fun p => decide (min_ratio_all < p.2)
      if acceptable ≠ [] then .ok (st, .MATCH, acceptable.map (·.1))
      else if interactive then
        match response with
        | none => .ok (st, .CHOICE_REQUIRED, [])
        | some choices =>
          if (choices.any fun c => decide (0 < c)) &&
              (choices.all fun c => decide (c ≤ (survivors.length : Int))) then
            match choices.mapM (fun c => pyGet survivors (c - 1)) with
            | some sel => .ok (st, .MATCH, sel.map (·.1))
            | none => .error .indexError
          else do
            let st' ← blacklistAll track st survivors
            .ok (st', .NO_MATCH, [])
      else .ok (st, .CHOICE_REQUIRED, [])
    else .ok (st, .NO_MATCH, [])

end NavidromeFM

namespace NavidromeFM

/-- Normalizer as the spec words it (§4.1): feature-suffix trimming then
lowercasing, applied to every field, the album included.  Kept for comparison
with `navKey`/`lfmKey`, the strings `matcher_for` actually builds. -/
def specNormalize (s : Str) : Str := lowerStr (trim_feature s)

/-- Aggregate key the spec's normalizer would produce for a navidrome track. -/
def specNavKey (t : NavidromeTrackEntry) : Str :=
  specNormalize t.title ++ specNormalize t.artist ++ specNormalize (albumOr t.album)

/-- Default element for Python-style list indexing in theorem statements. -/
def dummySurvivor : LastFMTrackEntry × ℚ := (⟨[], [], [], none, none⟩, 0)

/-- Concrete fixtures used by witnesses and counterexamples. -/
def rExact : LastFMTrackEntry := ⟨"L1".data, "ab".data, "cd".data, some "ef".data, none⟩

def tExact : NavidromeTrackEntry := ⟨"N1".data, "Ab".data, "cd".data, some "ef".data, none⟩

def stExact : ScrobbleStore := ⟨[rExact], [], []⟩

def rFuzzy1 : LastFMTrackEntry := ⟨"L1".data, "abcdefghyy".data, "pq".data, some "rs".data, none⟩

def rFuzzy2 : LastFMTrackEntry := ⟨"L2".data, "abcdefghzz".data, "pq".data, some "rs".data, none⟩

def tFuzzy : NavidromeTrackEntry := ⟨"N1".data, "abcdefghxx".data, "pq".data, some "rs".data, none⟩

def stFuzzy : ScrobbleStore := ⟨[rFuzzy1, rFuzzy2], [], []⟩

def stFuzzyBl : ScrobbleStore := ⟨[rFuzzy1, rFuzzy2], [], [("L1".data, "N1".data)]⟩

def rMid : LastFMTrackEntry :=
  ⟨"LC".data, "midnight city".data, "m83".data, some "dreaming".data, none⟩

def tMid : NavidromeTrackEntry :=
  ⟨"NC".data, "Midnight City".data, "M83".data, some "Dreaming".data, none⟩

def stMid : ScrobbleStore := ⟨[rMid], [], []⟩

def rMbid : LastFMTrackEntry := ⟨"L9".data, "t".data, "a".data, some "b".data, some "MB1".data⟩

def tMbid : NavidromeTrackEntry :=
  ⟨"N1".data, "x".data, "y".data, some "z".data, some "MB1".data⟩

def stMbid : ScrobbleStore := ⟨[rMbid], [], []⟩

def tPair : NavidromeTrackEntry := ⟨"N1".data, "ab".data, "cd".data, some "ef".data, none⟩

def tGhost : NavidromeTrackEntry := ⟨"N9".data, "ab".data, "cd".data, some "ef".data, none⟩

def stPaired : ScrobbleStore := ⟨[rExact], [("L1".data, "N1".data)], []⟩

def tFeat : NavidromeTrackEntry := ⟨"N1".data, "t".data, "a".data, some "gfeat. h".data, none⟩

def rTie1 : LastFMTrackEntry := ⟨"L1".data, "ab".data, "cd".data, some "ef".data, none⟩

def rTie2 : LastFMTrackEntry := ⟨"L2".data, "ab".data, "cd".data, some "ef".data, none⟩

def stTie : ScrobbleStore := ⟨[rTie1, rTie2], [], []⟩

end NavidromeFM

namespace Difflib

open NavidromeFM (Str)

/-- Certificate that the DP of `find_longest_match` on the pair `(a, a)` can
assign value `k` to cell `(i, j)`: a common run of `k` positions ending at
`(i, j)` whose row characters all carry a non-purged `b2j` index list. -/
def Chain2 (a : Str) (i j k : Nat) : Prop :=
  k ≤ i + 1 ∧ k ≤ j + 1 ∧ ∀ e < k, (j - e) ∈ b2j a (a.getD (i - e) ' ')

/-- Length of the maximal run of non-purged (non-popular) characters of `a`
ending at index `i` — the value the DP's diagonal cell `(i, i)` takes on the
pair `(a, a)`. -/
def npRun (a : Str) : Nat → Nat
  | 0 => if b2j a (a.getD 0 ' ') = [] then 0 else 1
  | i + 1 => if b2j a (a.getD (i + 1) ' ') = [] then 0 else npRun a i + 1

/-- Invariant of the DP state on the pair `(a, a)` before processing row `i`
(full range `alo = blo = 0`, `ahi = bhi = a.length`): the best block is
diagonal and within bounds, dominates every complete non-popular run so far,
and the previous row's `j2len` is chain-sound with the exact diagonal value. -/
def RowInv (a : Str) (i : Nat) (st : FlmState) : Prop :=
  st.besti = st.bestj ∧
  st.besti + st.bestsize ≤ a.length ∧
  (∀ m, m < i → npRun a m ≤ st.bestsize) ∧
  (∀ j, st.j2len j = 0 ∨ (1 ≤ i ∧ Chain2 a (i - 1) j (st.j2len j))) ∧
  (1 ≤ i → st.j2len (i - 1) = npRun a (i - 1))

/-- Invariant inside row `i` of the DP on the pair `(a, a)`, with the
still-unprocessed ascending column list `rest`. -/
def InRow (a : Str) (i : Nat) (cur : FlmState) (rest : List Nat) : Prop :=
  cur.besti = cur.bestj ∧
  cur.besti + cur.bestsize ≤ a.length ∧
  (∀ m, m < i → npRun a m ≤ cur.bestsize) ∧
  (∀ j, cur.j2len j = 0 ∨ Chain2 a i j (cur.j2len j)) ∧
  (cur.j2len i = npRun a i ∨ (i ∈ rest ∧ cur.j2len i = 0)) ∧
  (npRun a i ≤ cur.bestsize ∨ i ∈ rest ∨ b2j a (a.getD i ' ') = [])

end Difflib

namespace Difflib

open NavidromeFM (Str)

/-- The `mkRat` in `ratio` is exactly the division `2 * M / (len a + len b)`
of `_calculate_ratio`. -/
theorem ratio_eq_div (a b : Str) (h : a.length + b.length ≠ 0) :
    ratio a b = 2 * (totalMatches a b : ℚ) / ((a.length : ℚ) + (b.length : ℚ)) := by
  rw [ratio, if_neg h, Rat.mkRat_eq_div]
  push_cast
  ring

end Difflib

namespace NavidromeFM

theorem lowerStr_append (s t : Str) : lowerStr (s ++ t) = lowerStr s ++ lowerStr t :=
  List.map_append _ s t

theorem lastOccAux_eq_some (pat s : Str) (m i : Nat) (hi : i ≤ m)
    (hp : pat.isPrefixOf (s.drop i) = true)
    (hlast : ∀ j, i < j → j ≤ m → pat.isPrefixOf (s.drop j) = false) :
    lastOccAux pat s m = some i := by
  induction m with
  | zero =>
    interval_cases i
    rw [List.drop_zero] at hp
    simp [lastOccAux, hp]
  | succ m ih =>
    by_cases h : i = m + 1
    · subst h
      simp [lastOccAux, hp]
    · have him : i ≤ m := Nat.lt_succ_iff.mp (Nat.lt_of_le_of_ne hi h)
      have hm1 : pat.isPrefixOf (s.drop (m + 1)) = false :=
        hlast (m + 1) (Nat.lt_succ_of_le him) (Nat.le_refl _)
      simp only [lastOccAux, hm1]
      simp only [Bool.false_eq_true, if_false]
      exact ih him fun j hj hjm => hlast j hj (Nat.le_succ_of_le hjm)

theorem lastOccAux_eq_none (pat s : Str) (m : Nat)
    (hall : ∀ j, j ≤ m → pat.isPrefixOf (s.drop j) = false) :
    lastOccAux pat s m = none := by
  induction m with
  | zero =>
    have h0 := hall 0 (Nat.le_refl _)
    rw [List.drop_zero] at h0
    simp [lastOccAux, h0]
  | succ m ih =>
    have h1 := hall (m + 1) (Nat.le_refl _)
    simp only [lastOccAux, h1]
    simp only [Bool.false_eq_true, if_false]
    exact ih fun j hj => hall j (Nat.le_succ_of_le hj)

theorem subKeepBeforeLast_of_last (pat s : Str) (i : Nat) (hi : i ≤ s.length)
    (hp : pat.isPrefixOf (s.drop i) = true)
    (hlast : ∀ j, i < j → j ≤ s.length → pat.isPrefixOf (s.drop j) = false) :
    subKeepBeforeLast pat s = s.take i := by
  unfold subKeepBeforeLast lastOcc
  rw [lastOccAux_eq_some pat s s.length i hi hp hlast]

theorem subKeepBeforeLast_of_no_occurrence (pat s : Str)
    (hall : ∀ j, j ≤ s.length → pat.isPrefixOf (s.drop j) = false) :
    subKeepBeforeLast pat s = s := by
  unfold subKeepBeforeLast lastOcc
  rw [lastOccAux_eq_none pat s s.length hall]

/-- C6 (amended): `trim_feature` strips everything from the LAST case-sensitive
occurrence of `"feat. "` onward (the greedy anchored `(.*)` keeps the longest
prefix), then does the same for `"ft. "` on the result; lowercasing happens
afterwards at the call sites.  Stated for an input whose last `"feat. "`
occurrence starts at `i` and whose kept prefix has no `"ft. "` occurrence. -/
theorem trim_feature_strips_from_last_occurrence (s : Str) (i : Nat) (hi : i ≤ s.length)
    (hp : "feat. ".data.isPrefixOf (s.drop i) = true)
    (hlast : ∀ j < s.length + 1, i < j → "feat. ".data.isPrefixOf (s.drop j) = false)
    (hft : ∀ j < i + 1, "ft. ".data.isPrefixOf ((s.take i).drop j) = false) :
    trim_feature s = s.take i := by
  unfold trim_feature
  rw [subKeepBeforeLast_of_last "feat. ".data s i hi hp
      (fun j hj hjm => hlast j (Nat.lt_succ_of_le hjm) hj)]
  apply subKeepBeforeLast_of_no_occurrence
  intro j hj
  have hlen : (s.take i).length = i := by
    rw [List.length_take]
    exact Nat.min_eq_left hi
  exact hft j (by rw [hlen] at hj; exact Nat.lt_succ_of_le hj)

/-- C6 witness: the amended theorem applied to `"qfeat. rfeat. s"`, whose last
`"feat. "` occurrence starts at index 8. -/
theorem trim_feature_strips_from_last_occurrence_witness :
    trim_feature "qfeat. rfeat. s".data = "qfeat. rfeat. s".data.take 8 :=
  trim_feature_strips_from_last_occurrence "qfeat. rfeat. s".data 8 (by decide) (by decide)
    (by decide) (by decide)

/-- C6 counterexample: on `"qfeat. rfeat. s"` the first `"feat. "` occurrence
starts at index 1 (none starts at 0), yet `trim_feature` keeps the eight
characters `"qfeat. r"` before the LAST occurrence, not the one character
`"q"` before the first — refuting the claim that the first occurrence anchors
the trim. -/
theorem trim_feature_not_first_occurrence :
    "feat. ".data.isPrefixOf ("qfeat. rfeat. s".data.drop 1) = true ∧
    "feat. ".data.isPrefixOf ("qfeat. rfeat. s".data.drop 0) = false ∧
    trim_feature "qfeat. rfeat. s".data = "qfeat. r".data ∧
    trim_feature "qfeat. rfeat. s".data ≠ "q".data := by
  decide

/-- C5 (amended): before any fuzzy comparison, the aggregate key of
`matcher_for` is the concatenation of independently normalized fields —
feature-trimming plus lowercasing for title and artist — but the album field
is NOT feature-trimmed, only lowercased (a missing album becomes `""`);
trimming is never applied to the concatenation. -/
theorem matcher_keys_normalize_per_field :
    (∀ t : NavidromeTrackEntry, navKey t = lowerStr (trim_feature t.title) ++
      (lowerStr (trim_feature t.artist) ++ lowerStr (albumOr t.album))) ∧
    (∀ t : LastFMTrackEntry, lfmKey t = lowerStr (trim_feature t.title) ++
      (lowerStr (trim_feature t.artist) ++ lowerStr (albumOr t.album))) := by
  constructor <;> intro t <;>
    simp [navKey, lfmKey, lowerStr, List.map_append, List.append_assoc]

/-- C5 counterexample: for a track whose album contains `"feat. "`, the code's
aggregate key keeps the album's feature suffix (`"tagfeat. h"`), while the
spec's per-field normalizer (album included) would produce `"tag"` — so the
album does NOT undergo the claimed feature-suffix trimming. -/
theorem album_field_not_trimmed :
    navKey tFeat = "tagfeat. h".data ∧
    specNavKey tFeat = "tag".data ∧
    navKey tFeat ≠ specNavKey tFeat := by
  decide

/-- C9: a blacklisted `(remote, local)` pair never appears in the ranked
surviving candidate list for that local track, whatever its similarity
scores: the list is filtered through `is_blacklisted`. -/
theorem blacklisted_pair_never_candidate (st : ScrobbleStore) (track : NavidromeTrackEntry)
    (rid : Str) (min_ratio_each : ℚ) (min_overlap : Nat)
    (hb : (rid, track.id) ∈ st.blacklistRel) :
    ∀ p ∈ rankedSurvivors st track min_ratio_each min_overlap, p.1.id ≠ rid := by
  intro p hp heq
  rw [rankedSurvivors, List.mem_filter] at hp
  obtain ⟨-, hcond⟩ := hp
  simp only [Bool.and_eq_true, Bool.not_eq_true'] at hcond
  have hblf := hcond.2
  rw [is_blacklisted, decide_eq_false_iff_not] at hblf
  rw [← heq] at hb
  exact hblf hb

/-- C9 witness: with `("L1", "N1")` blacklisted, no surviving candidate for
`tFuzzy` carries the remote id `"L1"`. -/
theorem blacklisted_pair_never_candidate_witness :
    ("L1".data, tFuzzy.id) ∈ stFuzzyBl.blacklistRel ∧
    ∀ p ∈ rankedSurvivors stFuzzyBl tFuzzy (mkRat 7 10) 5, p.1.id ≠ "L1".data :=
  ⟨by decide,
    blacklisted_pair_never_candidate stFuzzyBl tFuzzy "L1".data (mkRat 7 10) 5 (by decide)⟩

/-- C2 (amended): `save_match` and `blacklist_match` raise `IntegrityError`
exactly when the pair is already present (so a repeat is NOT an idempotent
no-op) or when the last.fm track id is absent from `track`; a nonexistent
navidrome id alone is not detected (the tables declare no foreign key on
`navidromeid`); otherwise the pair is inserted and committed. -/
theorem record_ops_characterization (st : ScrobbleStore) (t1 : NavidromeTrackEntry)
    (t2 : LastFMTrackEntry) :
    (save_match st t1 t2 = .error .integrityError ↔
      (t2.id, t1.id) ∈ st.matchRel ∨ t2.id ∉ trackIds st) ∧
    ((t2.id, t1.id) ∉ st.matchRel → t2.id ∈ trackIds st →
      save_match st t1 t2 = .ok { st with matchRel := st.matchRel ++ [(t2.id, t1.id)] }) ∧
    (blacklist_match st t1 t2 = .error .integrityError ↔
      (t2.id, t1.id) ∈ st.blacklistRel ∨ t2.id ∉ trackIds st) ∧
    ((t2.id, t1.id) ∉ st.blacklistRel → t2.id ∈ trackIds st →
      blacklist_match st t1 t2 =
        .ok { st with blacklistRel := st.blacklistRel ++ [(t2.id, t1.id)] }) := by
  refine ⟨?_, ?_, ?_, ?_⟩
  · by_cases h : (t2.id, t1.id) ∈ st.matchRel ∨ t2.id ∉ trackIds st <;> simp [save_match, h]
  · intro h1 h2
    have h : ¬((t2.id, t1.id) ∈ st.matchRel ∨ t2.id ∉ trackIds st) := by
      push_neg
      exact ⟨h1, h2⟩
    simp [save_match, h]
  · by_cases h : (t2.id, t1.id) ∈ st.blacklistRel ∨ t2.id ∉ trackIds st <;>
      simp [blacklist_match, h]
  · intro h1 h2
    have h : ¬((t2.id, t1.id) ∈ st.blacklistRel ∨ t2.id ∉ trackIds st) := by
      push_neg
      exact ⟨h1, h2⟩
    simp [blacklist_match, h]

/-- C2 witness: the characterization applied to a fresh pair and to a pair
whose navidrome id exists nowhere. -/
theorem record_ops_characterization_witness :
    save_match stExact tExact rExact =
      .ok { stExact with matchRel := [("L1".data, "N1".data)] } ∧
    blacklist_match stExact tExact rExact =
      .ok { stExact with blacklistRel := [("L1".data, "N1".data)] } :=
  ⟨(record_ops_characterization stExact tExact rExact).2.1 (by decide) (by decide),
    (record_ops_characterization stExact tExact rExact).2.2.2 (by decide) (by decide)⟩

/-- C2 counterexample: with `("L1", "N1")` already recorded, recording it
again raises `IntegrityError` instead of being an idempotent no-op; and
recording a pair whose navidrome id `"N9"` exists nowhere succeeds instead of
raising a constraint violation. -/
theorem record_match_duplicate_raises :
    save_match stPaired tPair rExact = .error .integrityError ∧
    save_match stPaired tGhost rExact =
      .ok { stPaired with matchRel := stPaired.matchRel ++ [("L1".data, "N9".data)] } := by
  decide

/-- C1 (code bug evidence): in the tier-2 query the `COLLATE NOCASE` binds to
the album parameter only, so a stored row equal to the local track up to case
is NOT returned (first conjunct), though the spec's `find_exact` would return
it (second), and with fuzzy matching off the whole call reports `NO_MATCH`
(third); an album-only case difference IS tolerated (fourth). -/
theorem exact_tier_case_sensitive_on_title_artist :
    tier2 stMid tMid = [] ∧
    find_exact_spec stMid tMid = [rMid] ∧
    match_lastfm_tracks_for stMid tMid false false none (mkRat 9 10) (mkRat 7 10) 5 =
      .ok (stMid, .NO_MATCH, []) ∧
    tier2 stMid ⟨"NC".data, "midnight city".data, "m83".data, some "DREAMING".data, none⟩ =
      [rMid] := by
  decide

/-- C3 (code bug evidence): `match_lastfm_tracks_for` reaches the terminal
`MATCH` state and returns the accepted set while writing nothing to the match
relation — `record_match` is only ever invoked by `cli.command_match`, which
calls the nonexistent method `find_lastfm_tracks_for`. -/
theorem engine_returns_match_without_recording :
    match_lastfm_tracks_for stMbid tMbid false false none (mkRat 9 10) (mkRat 7 10) 5 =
      .ok (stMbid, .MATCH, [rMbid]) ∧
    stMbid.matchRel = [] := by
  decide

end NavidromeFM

namespace NavidromeFM

theorem mem_rankedSurvivors_not_blacklisted (st : ScrobbleStore) (track : NavidromeTrackEntry)
    (min_ratio_each : ℚ) (min_overlap : Nat) :
    ∀ p ∈ rankedSurvivors st track min_ratio_each min_overlap,
      (p.1.id, track.id) ∉ st.blacklistRel := by
  intro p hp
  rw [rankedSurvivors, List.mem_filter] at hp
  obtain ⟨-, hcond⟩ := hp
  simp only [Bool.and_eq_true, Bool.not_eq_true'] at hcond
  have hblf := hcond.2
  rw [is_blacklisted, decide_eq_false_iff_not] at hblf
  exact hblf

theorem pyGet_of_valid {α : Type} (l : List α) (c : Int) (h1 : 1 ≤ c)
    (h2 : c ≤ (l.length : Int)) (d : α) :
    pyGet l (c - 1) = some (l.getD (c.toNat - 1) d) := by
  have h0 : 0 ≤ c - 1 := by omega
  have htn : (c - 1).toNat = c.toNat - 1 := by omega
  have hlt : c.toNat - 1 < l.length := by omega
  rw [pyGet, if_pos h0, htn, List.getD_eq_get? , List.get?_eq_get hlt]
  rfl

theorem mapM_eq_some_map {α β : Type} (f : α → Option β) (g : α → β) (l : List α)
    (h : ∀ x ∈ l, f x = some (g x)) : l.mapM f = some (l.map g) := by
  induction l with
  | nil => rfl
  | cons x xs ih =>
    rw [List.mapM_cons, h x (by simp), ih fun y hy => h y (by simp [hy])]
    rfl

theorem blacklistAll_appends (track : NavidromeTrackEntry) (l : List (LastFMTrackEntry × ℚ))
    (st : ScrobbleStore)
    (hfk : ∀ p ∈ l, p.1.id ∈ trackIds st)
    (hbl : ∀ p ∈ l, (p.1.id, track.id) ∉ st.blacklistRel)
    (hnd : (l.map fun p => p.1.id).Nodup) :
    blacklistAll track st l =
      .ok { st with blacklistRel := st.blacklistRel ++ l.map fun p => (p.1.id, track.id) } := by
  induction l generalizing st with
  | nil => simp [blacklistAll]
  | cons p rest ih =>
    have hstep : blacklist_match st track p.1 =
        .ok { st with blacklistRel := st.blacklistRel ++ [(p.1.id, track.id)] } := by
      rw [blacklist_match, if_neg]
      push_neg
      exact ⟨hbl p (by simp), hfk p (by simp)⟩
    rw [blacklistAll, hstep]
    show blacklistAll track _ rest = _
    rw [List.map_cons, List.nodup_cons] at hnd
    rw [ih { st with blacklistRel := st.blacklistRel ++ [(p.1.id, track.id)] }
        (fun q hq => hfk q (by simp [hq]))
        (fun q hq => by
          rw [List.mem_append]
          push_neg
          refine ⟨hbl q (by simp [hq]), ?_⟩
          simp only [List.mem_singleton]
          intro hcontra
          have hqid : q.1.id = p.1.id := congrArg Prod.fst hcontra
          exact hnd.1 (hqid ▸ List.mem_map_of_mem (fun r => r.1.id) hq))
        hnd.2]
    simp [List.append_assoc]

/-- C7: when at least one surviving candidate's aggregate ratio exceeds
`min_ratio_all`, the engine returns `MATCH` with exactly the set of ALL
surviving candidates above the threshold, in ranked order — not only the top
one; the interactive flag and operator response are never consulted. -/
theorem fuzzy_accepts_all_above_threshold (st : ScrobbleStore) (track : NavidromeTrackEntry)
    (interactive : Bool) (response : Option (List Int)) (min_ratio_all min_ratio_each : ℚ)
    (min_overlap : Nat)
    (h1 : tier1 st track = []) (h2 : tier2 st track = [])
    (hacc : (rankedSurvivors st track min_ratio_each min_overlap).filter
      (fun p => decide (min_ratio_all < p.2)) ≠ []) :
    match_lastfm_tracks_for st track interactive true response min_ratio_all min_ratio_each
        min_overlap =
      .ok (st, .MATCH, ((rankedSurvivors st track min_ratio_each min_overlap).filter
        (fun p => decide (min_ratio_all < p.2))).map (·.1)) := by
  have hsv : rankedSurvivors st track min_ratio_each min_overlap ≠ [] := by
    intro hnil
    rw [hnil] at hacc
    exact hacc rfl
  rw [match_lastfm_tracks_for]
  rw [if_neg (by simp [h1]), if_neg (by simp [h2]), if_neg (by simp), if_pos hsv, if_pos hacc]

/-- C7 witness: two stored tracks tie above the threshold (both aggregate
ratios are `1`), and both are returned. -/
theorem fuzzy_accepts_all_above_threshold_witness :
    (rankedSurvivors stTie tExact (mkRat 7 10) 5).filter
      (fun p => decide (mkRat 9 10 < p.2)) ≠ [] ∧
    match_lastfm_tracks_for stTie tExact false true none (mkRat 9 10) (mkRat 7 10) 5 =
      .ok (stTie, .MATCH, ((rankedSurvivors stTie tExact (mkRat 7 10) 5).filter
        (fun p => decide (mkRat 9 10 < p.2))).map (·.1)) :=
  ⟨by decide, fuzzy_accepts_all_above_threshold stTie tExact false none (mkRat 9 10)
    (mkRat 7 10) 5 (by decide) (by decide) (by decide)⟩

/-- C10: when the operator's reply is a list of valid 1-based indices, the
engine returns `MATCH` with exactly the candidates at those positions of the
ranked surviving list, in the order given and without deduplication — a
repeated index selects the same candidate again. -/
theorem interactive_selection_positional (st : ScrobbleStore) (track : NavidromeTrackEntry)
    (choices : List Int) (min_ratio_all min_ratio_each : ℚ) (min_overlap : Nat)
    (h1 : tier1 st track = []) (h2 : tier2 st track = [])
    (hacc : (rankedSurvivors st track min_ratio_each min_overlap).filter
      (fun p => decide (min_ratio_all < p.2)) = [])
    (hne : choices ≠ [])
    (hv : ∀ c ∈ choices,
      1 ≤ c ∧ c ≤ ((rankedSurvivors st track min_ratio_each min_overlap).length : Int)) :
    match_lastfm_tracks_for st track true true (some choices) min_ratio_all min_ratio_each
        min_overlap =
      .ok (st, .MATCH, choices.map fun c =>
        ((rankedSurvivors st track min_ratio_each min_overlap).getD (c.toNat - 1)
          dummySurvivor).1) := by
  obtain ⟨c0, hc0⟩ := List.exists_mem_of_ne_nil choices hne
  have hsv : rankedSurvivors st track min_ratio_each min_overlap ≠ [] := by
    intro hnil
    have := hv c0 hc0
    rw [hnil] at this
    simp at this
    omega
  have hany : (choices.any fun c => decide (0 < c)) = true := by
    rw [List.any_eq_true]
    refine ⟨c0, hc0, ?_⟩
    have := (hv c0 hc0).1
    simp only [decide_eq_true_eq]
    omega
  have hall : (choices.all fun c =>
      decide (c ≤ ((rankedSurvivors st track min_ratio_each min_overlap).length : Int))) =
        true := by
    rw [List.all_eq_true]
    intro c hc
    simpa using (hv c hc).2
  have hsel : choices.mapM
      (fun c => pyGet (rankedSurvivors st track min_ratio_each min_overlap) (c - 1)) =
      some (choices.map fun c =>
        (rankedSurvivors st track min_ratio_each min_overlap).getD (c.toNat - 1)
          dummySurvivor) :=
    mapM_eq_some_map _ _ choices fun c hc =>
      pyGet_of_valid _ c (hv c hc).1 (hv c hc).2 dummySurvivor
  rw [match_lastfm_tracks_for]
  rw [if_neg (by simp [h1]), if_neg (by simp [h2]), if_neg (by simp), if_pos hsv,
    if_neg (by simp [hacc]), if_pos rfl]
  show (if _ = true then _ else _) = _
  rw [hany, hall]
  simp only [Bool.and_self, if_true, hsel]
  rw [List.map_map]
  rfl

/-- C10 witness: reply `2,1,2` on a two-candidate list yields the second,
first, and second candidate again — positional order kept, duplicate kept. -/
theorem interactive_selection_positional_witness :
    match_lastfm_tracks_for stFuzzy tFuzzy true true (some [2, 1, 2]) (mkRat 9 10)
        (mkRat 7 10) 5 =
      .ok (stFuzzy, .MATCH, [2, 1, 2].map fun c : Int =>
        ((rankedSurvivors stFuzzy tFuzzy (mkRat 7 10) 5).getD (c.toNat - 1)
          dummySurvivor).1) :=
  interactive_selection_positional stFuzzy tFuzzy [2, 1, 2] (mkRat 9 10) (mkRat 7 10) 5
    (by decide) (by decide) (by decide) (by decide) (by decide)

/-- C4 (amended): the reject-all branch runs exactly when the parsed reply
has no positive index or has an index exceeding the candidate count; then
every surviving candidate is blacklisted, in ranked order, and the call
returns `NO_MATCH` with no accepted match.  (A reply mixing a valid positive
index with indices `≤ 0` — or any in-range mix — is instead ACCEPTED with
Python negative-index wrap-around, and an index below `-count` raises
`IndexError`; see the counterexample.) -/
theorem reject_all_blacklists_every_survivor (st : ScrobbleStore) (track : NavidromeTrackEntry)
    (choices : List Int) (min_ratio_all min_ratio_each : ℚ) (min_overlap : Nat)
    (h1 : tier1 st track = []) (h2 : tier2 st track = [])
    (hacc : (rankedSurvivors st track min_ratio_each min_overlap).filter
      (fun p => decide (min_ratio_all < p.2)) = [])
    (hsv : rankedSurvivors st track min_ratio_each min_overlap ≠ [])
    (hguard : ¬((choices.any fun c => decide (0 < c)) = true ∧
      (choices.all fun c =>
        decide (c ≤ ((rankedSurvivors st track min_ratio_each min_overlap).length : Int))) =
          true))
    (hfk : ∀ p ∈ rankedSurvivors st track min_ratio_each min_overlap,
      p.1.id ∈ trackIds st)
    (hnd : ((rankedSurvivors st track min_ratio_each min_overlap).map
      fun p => p.1.id).Nodup) :
    match_lastfm_tracks_for st track true true (some choices) min_ratio_all min_ratio_each
        min_overlap =
      .ok ({ st with blacklistRel := (st.blacklistRel ++
          (rankedSurvivors st track min_ratio_each min_overlap).map
            (fun p => (p.1.id, track.id))) }, .NO_MATCH, []) := by
  have hg : ((choices.any fun c => decide (0 < c)) &&
      (choices.all fun c =>
        decide (c ≤ ((rankedSurvivors st track min_ratio_each min_overlap).length : Int)))) =
        false := by
    rw [← Bool.not_eq_true, Bool.and_eq_true]
    exact hguard
  rw [match_lastfm_tracks_for]
  rw [if_neg (by simp [h1]), if_neg (by simp [h2]), if_neg (by simp), if_pos hsv,
    if_neg (by simp [hacc]), if_pos rfl]
  show (if _ = true then _ else _) = _
  rw [hg]
  simp only [Bool.false_eq_true, if_false]
  rw [blacklistAll_appends track _ st hfk
    (mem_rankedSurvivors_not_blacklisted st track min_ratio_each min_overlap) hnd]
  rfl

/-- C4 amended-theorem witness: reply `0` on a two-candidate list blacklists
both candidates and returns `NO_MATCH`. -/
theorem reject_all_blacklists_every_survivor_witness :
    match_lastfm_tracks_for stFuzzy tFuzzy true true (some [0]) (mkRat 9 10) (mkRat 7 10) 5 =
      .ok ({ stFuzzy with blacklistRel := (stFuzzy.blacklistRel ++
          (rankedSurvivors stFuzzy tFuzzy (mkRat 7 10) 5).map
            (fun p => (p.1.id, tFuzzy.id))) }, .NO_MATCH, []) :=
  reject_all_blacklists_every_survivor stFuzzy tFuzzy [0] (mkRat 9 10) (mkRat 7 10) 5
    (by decide) (by decide) (by decide) (by decide) (by decide) (by decide) (by decide)

/-- C4 counterexample: on a two-candidate list, the reply `-1,1` mixes an
out-of-range index with a valid one; the claim demands blacklist-all with no
acceptance, but the engine ACCEPTS — returning the first candidate twice
(`-1` wraps Python-style to the first of two) and writing nothing to the
blacklist; and the reply `2,-5` makes the engine raise `IndexError` rather
than reject-all. -/
theorem mixed_selection_accepted_not_blacklisted :
    match_lastfm_tracks_for stFuzzy tFuzzy true true (some [-1, 1]) (mkRat 9 10)
        (mkRat 7 10) 5 = .ok (stFuzzy, .MATCH, [rFuzzy1, rFuzzy1]) ∧
    stFuzzy.blacklistRel = [] ∧
    rankedSurvivors stFuzzy tFuzzy (mkRat 7 10) 5 ≠ [] ∧
    match_lastfm_tracks_for stFuzzy tFuzzy true true (some [2, -5]) (mkRat 9 10)
        (mkRat 7 10) 5 = .error .indexError := by
  decide

end NavidromeFM

namespace Difflib

open NavidromeFM (Str)

theorem mem_b2j {b : Str} {c : Char} {j : Nat} (h : j ∈ b2j b c) :
    j < b.length ∧ b.getD j ' ' = c := by
  rw [b2j] at h
  split at h
  · exact absurd h (List.not_mem_nil j)
  · rw [List.mem_filter, List.mem_range] at h
    exact ⟨h.1, by simpa using h.2⟩

theorem self_mem_b2j {b : Str} {j : Nat} (hj : j < b.length)
    (hne : b2j b (b.getD j ' ') ≠ []) : j ∈ b2j b (b.getD j ' ') := by
  rw [b2j] at hne ⊢
  split at hne
  · exact absurd rfl hne
  · next hpop =>
    rw [if_neg hpop, List.mem_filter, List.mem_range]
    exact ⟨hj, by simp⟩

theorem pairwise_b2j (b : Str) (c : Char) : (b2j b c).Pairwise (· < ·) := by
  rw [b2j]
  split
  · exact List.Pairwise.nil
  · exact (List.pairwise_lt_range b.length).filter _

theorem npRun_le (a : Str) (i : Nat) : npRun a i ≤ i + 1 := by
  induction i with
  | zero =>
    rw [npRun]
    split <;> omega
  | succ i ih =>
    rw [npRun]
    split
    · omega
    · omega

theorem npRun_nonpop (a : Str) (i : Nat) :
    ∀ e < npRun a i, b2j a (a.getD (i - e) ' ') ≠ [] := by
  induction i with
  | zero =>
    intro e he
    rw [npRun] at he
    split at he
    · omega
    · next h =>
      interval_cases e
      simpa using h
  | succ i ih =>
    intro e he
    rw [npRun] at he
    split at he
    · omega
    · next h =>
      match e with
      | 0 => simpa using h
      | e' + 1 =>
        have he' : e' < npRun a i := by omega
        have := ih e' he'
        simpa [Nat.succ_sub_succ] using this

theorem npRun_eq_zero {a : Str} {i : Nat} (h : b2j a (a.getD i ' ') = []) :
    npRun a i = 0 := by
  cases i <;> · rw [npRun, if_pos h]

theorem npRun_zero_nonpop {a : Str} (h : b2j a (a.getD 0 ' ') ≠ []) : npRun a 0 = 1 := by
  rw [npRun, if_neg h]

theorem npRun_succ_nonpop {a : Str} {i : Nat} (h : b2j a (a.getD (i + 1) ' ') ≠ []) :
    npRun a (i + 1) = npRun a i + 1 := by
  rw [npRun, if_neg h]

theorem chain_zero (a : Str) (i j : Nat) : Chain2 a i j 0 :=
  ⟨Nat.zero_le _, Nat.zero_le _, fun e he => absurd he (Nat.not_lt_zero e)⟩

theorem chain_one {a : Str} {i j : Nat} (h : j ∈ b2j a (a.getD i ' ')) : Chain2 a i j 1 := by
  refine ⟨Nat.le_add_left 1 i, Nat.le_add_left 1 j, fun e he => ?_⟩
  interval_cases e
  simpa using h

theorem chain_succ {a : Str} {i j k : Nat} (hm : j + 1 ∈ b2j a (a.getD (i + 1) ' '))
    (hc : Chain2 a i j k) : Chain2 a (i + 1) (j + 1) (k + 1) := by
  obtain ⟨h1, h2, h3⟩ := hc
  refine ⟨by omega, by omega, fun e he => ?_⟩
  match e with
  | 0 => simpa using hm
  | e' + 1 =>
    have := h3 e' (by omega)
    simpa [Nat.succ_sub_succ] using this

theorem chain_le_np_left {a : Str} {k : Nat} :
    ∀ {i j : Nat}, Chain2 a i j k → k ≤ npRun a i := by
  induction k with
  | zero => exact fun _ => Nat.zero_le _
  | succ k ih =>
    intro i j hc
    obtain ⟨h1, h2, h3⟩ := hc
    have hm0 : j ∈ b2j a (a.getD i ' ') := by simpa using h3 0 (Nat.succ_pos k)
    have hne : b2j a (a.getD i ' ') ≠ [] := List.ne_nil_of_mem hm0
    match i with
    | 0 =>
      have : k = 0 := by omega
      subst this
      rw [npRun_zero_nonpop hne]
    | i' + 1 =>
      rw [npRun_succ_nonpop hne]
      match k with
      | 0 => omega
      | k' + 1 =>
        match j with
        | 0 => omega
        | j' + 1 =>
          have hsub : Chain2 a i' j' (k' + 1) := by
            refine ⟨by omega, by omega, fun e he => ?_⟩
            have := h3 (e + 1) (by omega)
            simpa [Nat.succ_sub_succ] using this
          have := ih hsub
          omega

theorem chain_diag {a : Str} {i j k : Nat} (hc : Chain2 a i j k) : Chain2 a j j k := by
  obtain ⟨h1, h2, h3⟩ := hc
  refine ⟨h2, h2, fun e he => ?_⟩
  have hm := h3 e he
  have := (mem_b2j hm).2
  rwa [← this] at hm

theorem chain_le_np_right {a : Str} {i j k : Nat} (hc : Chain2 a i j k) : k ≤ npRun a j :=
  chain_le_np_left (chain_diag hc)

theorem np_chain (a : Str) (i : Nat) (hi : i < a.length) : Chain2 a i i (npRun a i) := by
  refine ⟨npRun_le a i, npRun_le a i, fun e he => ?_⟩
  exact self_mem_b2j (by omega) (npRun_nonpop a i e he)

end Difflib

namespace Difflib

open NavidromeFM (Str)

theorem flmCell_inrow (a : Str) (old : Nat → Nat) (i : Nat) (hi : i < a.length)
    (hold4 : ∀ j, old j = 0 ∨ (1 ≤ i ∧ Chain2 a (i - 1) j (old j)))
    (hold5 : 1 ≤ i → old (i - 1) = npRun a (i - 1))
    (j : Nat) (tail : List Nat) (cur : FlmState)
    (hjm : j ∈ b2j a (a.getD i ' '))
    (htail : ∀ x ∈ tail, j < x)
    (hinr : InRow a i cur (j :: tail)) :
    InRow a i (flmCell old i cur j) tail := by
  obtain ⟨c1, c2, c3, c4, c5, c6⟩ := hinr
  simp only [flmCell]
  set k := (if j = 0 then 0 else old (j - 1)) + 1 with hk
  have chainK : Chain2 a i j k := by
    rcases Nat.eq_zero_or_pos j with hj0 | hjpos
    · subst hj0
      have hk1 : k = 1 := by simp [hk]
      rw [hk1]
      exact chain_one hjm
    · obtain ⟨j', rfl⟩ : ∃ j', j = j' + 1 := ⟨j - 1, by omega⟩
      have hk' : k = old j' + 1 := by simp [hk]
      rcases hold4 j' with hz | ⟨hi1, hch⟩
      · rw [hk', hz]
        exact chain_one hjm
      · obtain ⟨i', rfl⟩ : ∃ i', i = i' + 1 := ⟨i - 1, by omega⟩
        rw [hk']
        exact chain_succ hjm (by simpa using hch)
  have hdiag : j = i → k = npRun a i := by
    rintro rfl
    rcases Nat.eq_zero_or_pos j with hj0 | hjpos
    · subst hj0
      rw [hk]
      simp only [if_pos rfl, Nat.zero_add]
      exact (npRun_zero_nonpop (List.ne_nil_of_mem hjm)).symm
    · obtain ⟨i', rfl⟩ : ∃ i', j = i' + 1 := ⟨j - 1, by omega⟩
      rw [hk, if_neg (by omega), hold5 (by omega)]
      simp only [Nat.add_sub_cancel]
      exact (npRun_succ_nonpop (List.ne_nil_of_mem hjm)).symm
  by_cases hlt : cur.bestsize < k
  · rw [if_pos hlt]
    have hji : j = i := by
      by_contra hne
      have hkl := chain_le_np_left chainK
      have hkr := chain_le_np_right chainK
      rcases Nat.lt_or_ge j i with hji | hji
      · have := c3 j hji
        omega
      · have hij : i < j := by omega
        rcases c6 with h6 | h6 | h6
        · omega
        · rcases List.mem_cons.mp h6 with h' | h'
          · omega
          · have := htail i h'
            omega
        · rw [h6] at hjm
          exact absurd hjm (List.not_mem_nil j)
    subst hji
    have hk1 : k ≤ j + 1 := chainK.1
    refine ⟨rfl, ?_, ?_, ?_, ?_, ?_⟩
    · show j + 1 - k + k ≤ a.length
      omega
    · intro m hm
      have := c3 m hm
      show npRun a m ≤ k
      omega
    · intro j'
      show (if j' = j then k else cur.j2len j') = 0 ∨
        Chain2 a j j' (if j' = j then k else cur.j2len j')
      by_cases hj' : j' = j
      · subst hj'
        rw [if_pos rfl]
        right
        exact chainK
      · rw [if_neg hj']
        exact c4 j'
    · left
      show (if j = j then k else cur.j2len j) = npRun a j
      rw [if_pos rfl]
      exact hdiag rfl
    · left
      show npRun a j ≤ k
      have := hdiag rfl
      omega
  · rw [if_neg hlt]
    refine ⟨c1, c2, c3, ?_, ?_, ?_⟩
    · intro j'
      show (if j' = j then k else cur.j2len j') = 0 ∨
        Chain2 a i j' (if j' = j then k else cur.j2len j')
      by_cases hj' : j' = j
      · subst hj'
        rw [if_pos rfl]
        right
        exact chainK
      · rw [if_neg hj']
        exact c4 j'
    · show (if i = j then k else cur.j2len i) = npRun a i ∨
        (i ∈ tail ∧ (if i = j then k else cur.j2len i) = 0)
      by_cases hji : i = j
      · rw [if_pos hji]
        left
        exact hdiag hji.symm
      · rw [if_neg hji]
        rcases c5 with h5 | ⟨h5a, h5b⟩
        · left
          exact h5
        · rcases List.mem_cons.mp h5a with h' | h'
          · exact absurd h' hji
          · right
            exact ⟨h', h5b⟩
    · show npRun a i ≤ cur.bestsize ∨ i ∈ tail ∨ b2j a (a.getD i ' ') = []
      rcases c6 with h6 | h6 | h6
      · left
        exact h6
      · rcases List.mem_cons.mp h6 with h' | h'
        · left
          have := hdiag h'.symm
          omega
        · right
          left
          exact h'
      · right
        right
        exact h6

end Difflib

namespace Difflib

open NavidromeFM (Str)

theorem fold_inrow (a : Str) (old : Nat → Nat) (i : Nat) (hi : i < a.length)
    (hold4 : ∀ j, old j = 0 ∨ (1 ≤ i ∧ Chain2 a (i - 1) j (old j)))
    (hold5 : 1 ≤ i → old (i - 1) = npRun a (i - 1)) :
    ∀ (rest : List Nat) (cur : FlmState),
      (∀ j ∈ rest, j ∈ b2j a (a.getD i ' ')) →
      rest.Pairwise (· < ·) →
      InRow a i cur rest →
      InRow a i (rest.foldl (flmCell old i) cur) [] := by
  intro rest
  induction rest with
  | nil => exact fun cur _ _ h => h
  | cons j tail ih =>
    intro cur hmem hpair hinr
    rw [List.foldl_cons]
    have hpc := List.pairwise_cons.mp hpair
    exact ih (flmCell old i cur j) (fun x hx => hmem x (List.mem_cons_of_mem j hx)) hpc.2
      (flmCell_inrow a old i hi hold4 hold5 j tail cur (hmem j (List.mem_cons_self j tail))
        hpc.1 hinr)

theorem flmRow_rowinv (a : Str) (i : Nat) (hi : i < a.length) (st : FlmState)
    (hinv : RowInv a i st) : RowInv a (i + 1) (flmRow a a 0 a.length st i) := by
  obtain ⟨r1, r2, r3, r4, r5⟩ := hinv
  rw [flmRow]
  set js := (b2j a (a.getD i ' ')).filter
    (fun j => decide (0 ≤ j) && decide (j < a.length)) with hjs
  have hjsmem : ∀ j ∈ js, j ∈ b2j a (a.getD i ' ') := fun j hj => (List.mem_filter.mp hj).1
  have hjspair : js.Pairwise (· < ·) := (pairwise_b2j a (a.getD i ' ')).filter _
  have hself : b2j a (a.getD i ' ') ≠ [] → i ∈ js := by
    intro hne
    rw [hjs, List.mem_filter]
    refine ⟨self_mem_b2j hi hne, ?_⟩
    simp [hi]
  have hstart : InRow a i { st with j2len := fun _ => 0 } js := by
    refine ⟨r1, r2, r3, fun j => Or.inl rfl, ?_, ?_⟩
    · by_cases hne : b2j a (a.getD i ' ') = []
      · left
        exact (npRun_eq_zero hne).symm
      · right
        exact ⟨hself hne, rfl⟩
    · by_cases hne : b2j a (a.getD i ' ') = []
      · right
        right
        exact hne
      · right
        left
        exact hself hne
  have hfinal := fold_inrow a st.j2len i hi r4 r5 js { st with j2len := fun _ => 0 }
    hjsmem hjspair hstart
  obtain ⟨f1, f2, f3, f4, f5, f6⟩ := hfinal
  refine ⟨f1, f2, ?_, ?_, ?_⟩
  · intro m hm
    rcases Nat.lt_or_ge m i with hmi | hmi
    · exact f3 m hmi
    · have hmi' : m = i := by omega
      subst hmi'
      rcases f6 with h6 | h6 | h6
      · exact h6
      · exact absurd h6 (List.not_mem_nil m)
      · rw [npRun_eq_zero h6]
        exact Nat.zero_le _
  · intro j
    rcases f4 j with h | h
    · left
      exact h
    · right
      exact ⟨by omega, by simpa using h⟩
  · intro _
    simp only [Nat.add_sub_cancel]
    rcases f5 with h | ⟨h, -⟩
    · exact h
    · exact absurd h (List.not_mem_nil i)

theorem fold_rows_rowinv (a : Str) :
    ∀ (r start : Nat) (st : FlmState), start + r ≤ a.length → RowInv a start st →
      RowInv a (start + r) ((List.range' start r).foldl (flmRow a a 0 a.length) st) := by
  intro r
  induction r with
  | zero => exact fun start st _ h => h
  | succ r ih =>
    intro start st hle hinv
    rw [List.range'_succ, List.foldl_cons]
    have hstep := flmRow_rowinv a start (by omega) st hinv
    have := ih (start + 1) (flmRow a a 0 a.length st start) (by omega) hstep
    rwa [show start + 1 + r = start + (r + 1) by omega] at this

theorem flmDP_rowinv (a : Str) : RowInv a a.length (flmDP a a 0 a.length 0 a.length) := by
  rw [flmDP]
  have h0 : RowInv a 0 { j2len := fun _ => 0, besti := 0, bestj := 0, bestsize := 0 } := by
    refine ⟨rfl, by simp, fun m hm => absurd hm (Nat.not_lt_zero m), fun j => Or.inl rfl,
      fun h => absurd h (by omega)⟩
  have := fold_rows_rowinv a (a.length - 0) 0
    { j2len := fun _ => 0, besti := 0, bestj := 0, bestsize := 0 } (by omega) h0
  simpa using this

end Difflib

namespace Difflib

open NavidromeFM (Str)

theorem extendBack_diag (a : Str) : ∀ (x s : Nat), extendBack a a 0 0 x x x s = (0, 0, s + x) := by
  intro x
  induction x with
  | zero => intro s; rfl
  | succ x ih =>
    intro s
    rw [extendBack, if_pos ⟨Nat.succ_pos x, Nat.succ_pos x, rfl⟩]
    simp only [Nat.add_sub_cancel]
    rw [ih (s + 1)]
    congr 2
    omega

theorem extendFwd_diag (a : Str) :
    ∀ (fuel size : Nat), size ≤ a.length → a.length ≤ size + fuel →
      extendFwd a a a.length a.length fuel 0 0 size = a.length := by
  intro fuel
  induction fuel with
  | zero =>
    intro size h1 h2
    rw [extendFwd]
    omega
  | succ fuel ih =>
    intro size h1 h2
    by_cases hs : size < a.length
    · rw [extendFwd, if_pos ⟨by omega, by omega, rfl⟩]
      exact ih (size + 1) (by omega) (by omega)
    · rw [extendFwd, if_neg (by omega)]
      omega

theorem find_longest_match_self (a : Str) :
    find_longest_match a a 0 a.length 0 a.length = (0, 0, a.length) := by
  obtain ⟨h1, h2, h3, h4, h5⟩ := flmDP_rowinv a
  rw [find_longest_match]
  set st := flmDP a a 0 a.length 0 a.length
  rw [← h1, extendBack_diag a st.besti st.bestsize]
  simp only []
  rw [extendFwd_diag a a.length (st.bestsize + st.besti) (by omega) (by omega)]

theorem totalMatches_self (a : Str) : totalMatches a a = a.length := by
  rcases Nat.eq_zero_or_pos a.length with h | h
  · have ha : a = [] := List.length_eq_zero.mp h
    subst ha
    rfl
  · rw [totalMatches]
    obtain ⟨f, hf⟩ : ∃ f, a.length + a.length + 1 = f + 1 := ⟨a.length + a.length, rfl⟩
    rw [hf, matchesSum]
    simp only [find_longest_match_self a]
    rw [if_neg (by omega)]
    rw [if_neg (by omega), if_neg (by omega)]
    omega

end Difflib

namespace NavidromeFM

/-- C8 (amended): the claimed symmetry `ratio(a,b) == ratio(b,a)` does NOT
hold for `difflib.SequenceMatcher` (see the counterexample), but the other
half of the claim is true: for EVERY string `a`, `ratio(a,a) == 1.0` — on the
pair `(a, a)` the dynamic program's running best block always stays on the
diagonal (an off-diagonal cell value is bounded by an already-seen diagonal
run), and the extension loops then stretch a diagonal block to the whole
string, so the single matching block has size `len(a)`; this holds even when
the autojunk purge is in effect. -/
theorem ratio_self_eq_one (a : Str) : Difflib.ratio a a = 1 := by
  rw [Difflib.ratio]
  by_cases h : a.length + a.length = 0
  · rw [if_pos h]
  · rw [if_neg h, Difflib.totalMatches_self, Rat.mkRat_eq_div]
    have hn : ((a.length + a.length : Nat) : ℚ) ≠ 0 := by
      exact_mod_cast h
    push_cast at hn ⊢
    field_simp
    ring

/-- C8 counterexample: the similarity scorer is not symmetric in result:
on `a = "aba"`, `b = "babba"` the matched total is `3` one way (blocks
`"ab"` and `"a"`) but only `2` the other way (single block `"ab"`; the
recursion after the first block looks on the wrong side), so
`ratio(a,b) = 0.75` while `ratio(b,a) = 0.5`. -/
theorem ratio_not_symmetric :
    Difflib.ratio "aba".data "babba".data = mkRat 3 4 ∧
    Difflib.ratio "babba".data "aba".data = mkRat 1 2 ∧
    Difflib.ratio "aba".data "babba".data ≠ Difflib.ratio "babba".data "aba".data := by
  decide

end NavidromeFM
